import Mathlib

/-!
Verification of the graph-construction scope/namespacing layer and the
function-capture layer of the Go tensorflow binding
(tensorflow/go/op/scope.go, tensorflow/go/func.go, tensorflow/go/worker.go).

Pure Go logic is embedded directly.  The native runtime reached through the
C API (graph.go / c_api) is not part of the sources; those calls are
modelled from the specification, each such definition says so in its doc
comment.  Shared mutable state (the error cell, the name maps, the tag
registry, the graph — all shared by pointer between derived scopes in Go)
is modelled by an explicit `World` state threaded through every call;
scopes hold an index into a heap of name-counter tables.
-/

namespace TfGo

/-- Decimal digit character, `48 + d` is the ASCII code of digit `d`. -/
def decDigit (d : Nat) : Char := Char.ofNat (48 + d)

/-- Embedding of Go's `fmt.Sprintf("%d", n)`: decimal digits of `n`. -/
def decChars (n : Nat) : List Char :=
  if _h : n < 10 then [decDigit n]
  else decChars (n / 10) ++ [decDigit (n % 10)]
decreasing_by exact Nat.div_lt_self (by omega) (by norm_num)

/-- Decimal rendering of a natural number as a string. -/
def decStr (n : Nat) : String := ⟨decChars n⟩

/-- Go map lookup with the type's zero value as default: first shadowing
entry of an association list, embedding `m[k]` for Go maps. -/
def assocFind {κ α : Type} [DecidableEq κ] (m : List (κ × α)) (k : κ) (d : α) : α :=
  match m with
  | [] => d
  | p :: rest => if p.1 = k then p.2 else assocFind rest k d

/-- Go map update `m[k] = v`, as a shadowing cons on an association list. -/
def assocSet {κ α : Type} (m : List (κ × α)) (k : κ) (v : α) : List (κ × α) :=
  (k, v) :: m

/-- Embedding of `type VarTag string` of scope.go. -/
abbrev VarTag := String

/-- Parameter tag `TagTrainable` of scope.go. -/
def TagTrainable : VarTag := "TagTrainable"

/-- Parameter tag `TagDecayL1` of scope.go. -/
def TagDecayL1 : VarTag := "TagDecayL1"

/-- Parameter tag `TagDecayL2` of scope.go. -/
def TagDecayL2 : VarTag := "TagDecayL2"

/-- Go `DataType` (a C enum value). -/
abbrev DataType := Nat

/-- A tensor handle: its data type plus an identity token standing for the
underlying native buffer, so that returning the same tensor is expressible. -/
structure Tensor where
  dtype : DataType
  id : Nat
deriving DecidableEq, Repr

/-- Embedding of `Tensor.DataType` accessor of tensor.go. -/
def Tensor.DataType (t : Tensor) : DataType := t.dtype

/-- The distinct error constructions of scope.go / func.go: each constructor
is one `fmt.Errorf` shape of the source, so errors built from different
format strings are distinct by construction. -/
inductive GoError where
  | native (msg : String)
  | addOpFailed (opType : String) (cause : String)
  | scopeFinalized
  | noMatchingParams (tags : List VarTag)
  | nilFuncRegister
  | outNameMismatch (numOuts numNames : Nat)
  | emptyImport
deriving DecidableEq, Repr

/-- A native operation handle, identified by its final name and type. -/
structure Operation where
  name : String
  typ : String
deriving DecidableEq, Repr

/-- Embedding of `tf.Output`: one output of an operation. -/
structure Output where
  op : Operation
  index : Nat
deriving DecidableEq, Repr

/-- Embedding of `op.Output(i)` of graph.go. -/
def Operation.Output (op : Operation) (i : Nat) : Output := ⟨op, i⟩

/-- A value of Go's `map[string]any` attribute map, restricted to the
attribute kinds the embedded callers use. -/
inductive AttrValue where
  | tensor (t : Tensor)
  | dtype (d : DataType)
  | str (s : String)
deriving DecidableEq, Repr

/-- Embedding of `tf.OpSpec` of graph.go: the specification of an operation to append. -/
structure OpSpec where
  type : String
  name : String
  input : List Output
  attrs : List (String × AttrValue)
  controlDependencies : List Operation
  device : String
deriving DecidableEq, Repr

/-- Embedding of `tf.Func` of func.go.  Modelled from the spec: the native function handle
carries its external name, its opaque serialized definition (the wire form —
a nonempty structured byte sequence whose only contract is round-trip
fidelity), and its named attributes as serialized blobs (absent ≡ empty). -/
structure Func where
  name : String
  bytes : { l : List Nat // l ≠ [] }
  attrs : List (String × List Nat)
deriving DecidableEq

/-- Embedding of `Func.Name` of func.go. -/
def Func.Name (fn : Func) : String := fn.name

/-- Embedding of `tf.Graph`: the operations appended so far (with the full spec each was
submitted with) and the registered function table. -/
structure Graph where
  ops : List OpSpec
  funcs : List Func
deriving DecidableEq

/-- Embedding of `tf.NewGraph()`. -/
def NewGraph : Graph := ⟨[], []⟩

/-- Modelled from the spec: native operation-append (`Graph.AddOperation` of
graph.go, not under src/) — validates the spec against the graph (the
validator is a parameter, since validation is native) and on success appends
the operation and returns its handle, otherwise returns a structured error
and leaves the graph unchanged. -/
def Graph.AddOperation (validate : Graph → OpSpec → Option String)
    (g : Graph) (args : OpSpec) : Except String Operation × Graph :=
  match validate g args with
  | some msg => (.error msg, g)
  | none => (.ok ⟨args.name, args.type⟩, { g with ops := g.ops ++ [args] })

/-- Embedding of `Graph.RegisterFunc` of func.go: a nil function is an explicit error;
otherwise the function is copied into the graph's function table
(`TF_GraphCopyFunction`, modelled from the spec as a non-destructive copy). -/
def Graph.RegisterFunc (g : Graph) (fn _grad : Option Func) : Except GoError Graph :=
  match fn with
  | none => .error .nilFuncRegister
  | some f => .ok { g with funcs := g.funcs ++ [f] }

/-- Embedding of `Graph.AsFunc` of func.go: rejects a nonempty output-name list whose
length differs from the output count; otherwise captures the graph as a
function (`TF_GraphToFunction`, modelled from the spec: all operations are
captured and an opaque nonempty wire form is produced). -/
def Graph.AsFunc (g : Graph) (name : String) (inputs outputs : List Output)
    (outNames : List String) (_desc : String) : Except GoError Func :=
  if outputs.length ≠ outNames.length ∧ outNames.length ≠ 0 then
    .error (.outNameMismatch outputs.length outNames.length)
  else
    .ok { name := name,
          bytes := ⟨1 :: inputs.length :: outputs.length :: g.ops.length :: [], by simp⟩,
          attrs := [] }

/-- Embedding of `Func.WriteTo` of func.go: serializes the function definition
(`TF_FunctionToFunctionDef`, modelled from the spec as returning the stored
wire form) and writes it to the writer; returns the byte count written and
the bytes that reached the writer. -/
def Func.WriteTo (fn : Func) : Except GoError Nat × List Nat :=
  (.ok fn.bytes.val.length, fn.bytes.val)

/-- Embedding of `ImportFunc` of func.go: an empty buffer is an explicit error; otherwise
the native import (`TF_FunctionImportFunctionDef`, modelled from the spec:
importing a wire form stores it unchanged, so that re-export reproduces it
byte-identically) yields a function handle. -/
def ImportFunc (proto : List Nat) : Except GoError Func :=
  if h : proto = [] then .error .emptyImport
  else .ok ⟨"", ⟨proto, h⟩, []⟩

/-- Embedding of `Func.SetAttrFrom` of func.go: the declared length `cLen` is taken before
the zero-length buffer is padded with a placeholder byte, so a zero-length
write still performs the native set call with length 0
(`TF_FunctionSetAttrValueProto`, modelled from the spec as storing the
declared-length prefix of the passed buffer). -/
def Func.SetAttrFrom (fn : Func) (attrName : String) (proto : List Nat) :
    Except GoError Func :=
  let cLen := proto.length
  let padded := if proto.length = 0 then [0] else proto
  .ok { fn with attrs := assocSet fn.attrs attrName (padded.take cLen) }

/-- Embedding of `Func.WriteAttrTo` of func.go: reads the serialized attribute
(`TF_FunctionGetAttrValueProto`, modelled from the spec as returning the
stored blob, empty when absent); a zero-length result is returned as 0 bytes
without writing to the destination. -/
def Func.WriteAttrTo (fn : Func) (attrName : String) : Except GoError Nat × List Nat :=
  let buf := assocFind fn.attrs attrName []
  if buf.length = 0 then (.ok 0, [])
  else (.ok buf.length, buf)

/-- A per-operation-type name counter table (`opNameMap` of scope.go). -/
abbrev NameMap := List (String × Nat)

/-- The state shared by reference across one scope tree: the owned graph,
the heap of name-counter tables (scopes point into it), the shared tag
registry (`outTagMap`) and the shared sticky error cell (`scopeErr`). -/
structure World where
  graph : Graph
  namemaps : List NameMap
  outTagMap : List (VarTag × List Output)
  err : Option GoError
deriving DecidableEq

/-- The counter value `(*s.namemap)[t]` read through a scope's map index. -/
def World.counter (w : World) (ref : Nat) (t : String) : Nat :=
  assocFind (w.namemaps.getD ref []) t 0

/-- The counter update `(*s.namemap)[t] = v` through a scope's map index. -/
def World.bumpCounter (w : World) (ref : Nat) (t : String) (v : Nat) : World :=
  { w with namemaps := w.namemaps.set ref (assocSet (w.namemaps.getD ref []) t v) }

/-- Embedding of `op.Scope` of scope.go.  The graph, tag registry and error cell are the
world's shared ones; the scope itself carries its name-map pointer (an index
into the world's heap), its namespace and its copied-on-derive control
dependencies and device string. -/
structure Scope where
  namemapRef : Nat
  nspace : String
  controlDependencies : List Operation
  device : String
deriving DecidableEq, Repr

/-- Embedding of `NewScope()` of scope.go: a root scope over a fresh graph, a fresh name
map, a fresh tag registry and a fresh error cell. -/
def NewScope : Scope × World := (⟨0, "", [], ""⟩, ⟨NewGraph, [[]], [], none⟩)

/-- Embedding of `NewScopeWithGraph` of scope.go. -/
def NewScopeWithGraph (g : Graph) : Scope × World := (⟨0, "", [], ""⟩, ⟨g, [[]], [], none⟩)

/-- Embedding of `Scope.Err` of scope.go: the shared sticky error cell. -/
def Scope.Err (_s : Scope) (w : World) : Option GoError := w.err

/-- Embedding of `Scope.UpdateErr` of scope.go: records the first failure in the shared
cell (later failures do not overwrite it) and then panics with the cell's
content; the returned `GoError` is the panic value. -/
def Scope.UpdateErr (_s : Scope) (op : String) (cause : String) (w : World) :
    GoError × World :=
  let w1 := match w.err with
    | none => { w with err := some (.addOpFailed op cause) }
    | some _ => w
  (w1.err.getD (.addOpFailed op cause), w1)

/-- The observable outcome of `Scope.AddOperation`: the nil sentinel (scope
already poisoned), a returned operation handle, or a panic raised to the
immediate caller by `UpdateErr`. -/
inductive AddResult where
  | sentinel
  | ok (op : Operation)
  | panicked (e : GoError)
deriving DecidableEq, Repr

/-- Embedding of `Scope.AddOperation` of scope.go: short-circuits on a poisoned error
cell; auto-names a nameless spec as `<Type>_<n>` from the scope's counter
table (incremented first, so the first name is `<Type>_1`); prefixes a
non-empty namespace with `/`; attaches the scope's control dependencies and
device; then performs the native append, and on failure records the error
via `UpdateErr`, which panics. -/
def Scope.AddOperation (validate : Graph → OpSpec → Option String)
    (s : Scope) (args : OpSpec) (w : World) : AddResult × World :=
  match Scope.Err s w with
  | some _ => (.sentinel, w)
  | none =>
    let c := w.counter s.namemapRef args.type + 1
    let w1 := if args.name = "" then w.bumpCounter s.namemapRef args.type c else w
    let n1 := if args.name = "" then args.type ++ "_" ++ decStr c else args.name
    let n2 := if s.nspace ≠ "" then s.nspace ++ "/" ++ n1 else n1
    let args1 := { args with
                   name := n2,
                   controlDependencies := args.controlDependencies ++ s.controlDependencies,
                   device := s.device }
    match Graph.AddOperation validate w1.graph args1 with
    | (.ok op, g) => (.ok op, { w1 with graph := g })
    | (.error msg, g) =>
      let p := Scope.UpdateErr s args.type msg { w1 with graph := g }
      (.panicked p.1, p.2)

/-- Embedding of `Scope.Finalize` of scope.go: returns the graph when no error was
recorded, and poisons the cell with the finalized error so the scope is no
longer usable; otherwise returns the recorded error. -/
def Scope.Finalize (s : Scope) (w : World) : Except GoError Graph × World :=
  match Scope.Err s w with
  | some e => (.error e, w)
  | none => (.ok w.graph, { w with err := some .scopeFinalized })

/-- Embedding of `Scope.uniqueName` of scope.go: reads the counter (starting at 0), bumps
it, and returns `name_<count>`. -/
def Scope.uniqueName (s : Scope) (name : String) (w : World) : String × World :=
  let count := w.counter s.namemapRef name
  (name ++ "_" ++ decStr count, w.bumpCounter s.namemapRef name (count + 1))

/-- Embedding of `Scope.SubScope` of scope.go: disambiguates the proposed namespace with
the parent's counter table, prefixes the parent's non-empty namespace, and
returns a child with a fresh (appended) name-counter table that shares the
world's graph, tag registry and error cell and copies the parent's control
dependencies and device. -/
def Scope.SubScope (s : Scope) (ns : String) (w : World) : Scope × World :=
  let u := Scope.uniqueName s ns w
  let full := if s.nspace ≠ "" then s.nspace ++ "/" ++ u.1 else u.1
  (⟨u.2.namemaps.length, full, s.controlDependencies, s.device⟩,
   { u.2 with namemaps := u.2.namemaps ++ [[]] })

/-- Embedding of `Scope.WithControlDependencies` of scope.go: same namespace, name table
and device; the dependency list is copied into a fresh list. -/
def Scope.WithControlDependencies (s : Scope) (ops : List Operation) : Scope :=
  { s with controlDependencies := s.controlDependencies ++ ops }

/-- Embedding of `Scope.WithDevice` of scope.go. -/
def Scope.WithDevice (s : Scope) (device : String) : Scope :=
  { s with device := device }

/-- Embedding of `Scope.tagVariable` of scope.go: appends the output under each given tag
in order (a tag listed twice records the output twice). -/
def Scope.tagVariable (s : Scope) (x : Output) : List VarTag → World → World
  | [], w => w
  | t :: ts, w =>
      Scope.tagVariable s x ts
        { w with outTagMap := assocSet w.outTagMap t (assocFind w.outTagMap t [] ++ [x]) }

/-- The `for _, t := range tags` accumulation loop of `Scope.GetParams`. -/
def getParamsList (m : List (VarTag × List Output)) : List VarTag → List Output
  | [] => []
  | t :: ts => assocFind m t [] ++ getParamsList m ts

/-- Embedding of `Scope.GetParams` of scope.go: defaults to `TagTrainable` when no tag is
requested, then concatenates the recorded outputs per requested tag. -/
def Scope.GetParams (_s : Scope) (tags : List VarTag) (w : World) : List Output :=
  getParamsList w.outTagMap (if tags = [] then [TagTrainable] else tags)

/-- Embedding of `Scope.mustGetParams` of scope.go: panics (modelled as an error result)
when the returned parameter list is empty. -/
def Scope.mustGetParams (s : Scope) (tags : List VarTag) (w : World) :
    Except GoError (List Output) :=
  let params := Scope.GetParams s tags w
  if params.length = 0 then .error (.noMatchingParams tags) else .ok params

/-- A sequence of `AddOperation` calls on one scope, as a Go caller performs
them: a panic aborts the sequence.  Returns the names of the operations that
were added by auto-named (nameless) specs, in order. -/
def runAdds (validate : Graph → OpSpec → Option String) (s : Scope) :
    List OpSpec → World → List String × World
  | [], w => ([], w)
  | a :: rest, w =>
    match Scope.AddOperation validate s a w with
    | (.panicked _, w') => ([], w')
    | (.sentinel, w') => runAdds validate s rest w'
    | (.ok op, w') =>
      let r := runAdds validate s rest w'
      ((if a.name = "" then [op.name] else []) ++ r.1, r.2)

/-- Modelled from the spec: the native capabilities worker.go reaches through
the runtime — operation validation for append, session creation, and running
the cast session on a tensor, all capable of failing. -/
structure CastRuntime where
  validate : Graph → OpSpec → Option String
  newSession : Graph → Except GoError Nat
  run : Nat → Tensor → Operation → Except GoError Tensor

/-- The process-wide `worker` state of worker.go: lazily created graph,
session and cast-operation cache. -/
structure workerObj where
  graph : Option Graph
  session : Option Nat
  castMap : List ((DataType × DataType) × (Operation × Operation))

/-- Embedding of `CastTensor` of worker.go: short-circuits (returning the input tensor
itself and no error) when the tensor already has the requested data type;
otherwise lazily initializes the worker graph and cache, builds or reuses
the per-dtype-pair Const/Cast operations, creates the session on first use
of a pair, and runs the cast. -/
def CastTensor (rt : CastRuntime) (dtype : DataType) (inp : Tensor)
    (w0 : workerObj) : Except GoError Tensor × workerObj :=
  if inp.DataType = dtype then (.ok inp, w0)
  else
    let w := if w0.session = none then { w0 with graph := some NewGraph, castMap := [] } else w0
    let castKey : DataType × DataType := (inp.DataType, dtype)
    let g := w.graph.getD NewGraph
    match w.castMap.find? (fun p => decide (p.1 = castKey)) with
    | some pr =>
      match w.session with
      | none => (.error (.native "nil worker session"), w)
      | some sess =>
        match rt.run sess inp pr.2.2 with
        | .error e => (.error e, w)
        | .ok t => (.ok t, w)
    | none =>
      match Graph.AddOperation rt.validate g
          ⟨"Const", "castInp_" ++ decStr castKey.1 ++ "_" ++ decStr castKey.2, [],
           [("value", .tensor inp), ("dtype", .dtype inp.DataType)], [], ""⟩ with
      | (.error msg, g1) => (.error (.native msg), { w with graph := some g1 })
      | (.ok inpOp, g1) =>
        match Graph.AddOperation rt.validate g1
            ⟨"Cast", "castOut_" ++ decStr castKey.1 ++ "_" ++ decStr castKey.2,
             [inpOp.Output 0], [("DstT", .dtype dtype)], [], ""⟩ with
        | (.error msg, g2) => (.error (.native msg), { w with graph := some g2 })
        | (.ok outOp, g2) =>
          let w1 := { w with
                      graph := some g2,
                      castMap := assocSet w.castMap castKey (inpOp, outOp) }
          match rt.newSession g2 with
          | .error e => (.error e, w1)
          | .ok sess =>
            let w2 := { w1 with session := some sess }
            match rt.run sess inp outOp with
            | .error e => (.error e, w2)
            | .ok t => (.ok t, w2)

/-- A validator that accepts every operation. -/
def vOk : Graph → OpSpec → Option String := fun _ _ => none

/-- A validator that rejects every operation. -/
def vFail : Graph → OpSpec → Option String := fun _ _ => some "rejected"

/-- The root scope of `NewScope`. -/
def s0 : Scope := NewScope.1

/-- The fresh world of `NewScope`. -/
def w0 : World := NewScope.2

/-- A world whose shared error cell is already poisoned. -/
def wBoom : World := { w0 with err := some (.native "boom") }

/-- A nameless Const spec. -/
def constSpec : OpSpec := ⟨"Const", "", [], [], [], ""⟩

/-- A sample function handle. -/
def fnSample : Func := ⟨"f", ⟨[3, 1, 4], by decide⟩, [("grad", [9, 9])]⟩

/-- A sample tensor of data type 7. -/
def tenSample : Tensor := ⟨7, 42⟩

/-- A sample runtime whose calls all succeed. -/
def rtSample : CastRuntime := ⟨fun _ _ => none, fun _ => .ok 0, fun _ t _ => .ok t⟩

/-- The zero-valued worker state of worker.go. -/
def wkSample : workerObj := ⟨none, none, []⟩

/-- A sample output handle for tag-registry witnesses. -/
def outSample : Output := ⟨⟨"v", "VarHandleOp"⟩, 0⟩

end TfGo

namespace TfGo

theorem decChars_def (n : Nat) :
    decChars n =
      if n < 10 then [decDigit n]
      else decChars (n / 10) ++ [decDigit (n % 10)] := by
  rw [decChars]
  split <;> simp_all

theorem decChars_ne_nil (n : Nat) : decChars n ≠ [] := by
  rw [decChars_def]
  split <;> simp

theorem decDigit_bound {d : Nat} (h : d < 10) :
    48 ≤ (decDigit d).toNat ∧ (decDigit d).toNat ≤ 57 := by
  interval_cases d <;> decide

theorem mem_decChars_isDigit {n : Nat} {c : Char} (h : c ∈ decChars n) :
    48 ≤ c.toNat ∧ c.toNat ≤ 57 := by
  induction n using Nat.strong_induction_on with
  | _ n ih =>
    rw [decChars_def] at h
    split at h
    · next hlt =>
      simp only [List.mem_singleton] at h
      subst h
      exact decDigit_bound hlt
    · next hge =>
      rcases List.mem_append.1 h with h' | h'
      · exact ih (n / 10) (Nat.div_lt_self (by omega) (by norm_num)) h'
      · simp only [List.mem_singleton] at h'
        subst h'
        exact decDigit_bound (Nat.mod_lt _ (by norm_num))

theorem underscore_not_mem_decChars (n : Nat) : '_' ∉ decChars n := by
  intro h
  exact absurd (mem_decChars_isDigit h) (by decide)

theorem decDigit_inj {a b : Nat} (ha : a < 10) (hb : b < 10)
    (h : decDigit a = decDigit b) : a = b := by
  interval_cases a <;> interval_cases b <;> simp_all <;> revert h <;> decide

theorem decChars_injective : Function.Injective decChars := by
  intro a b h
  induction a using Nat.strong_induction_on generalizing b with
  | _ a ih =>
    rw [decChars_def a, decChars_def b] at h
    split at h <;> split at h
    · next h1 h2 =>
      simp only [List.cons.injEq] at h
      exact decDigit_inj h1 h2 h.1
    · next h1 h2 =>
      exfalso
      have hlen := congrArg List.length h
      simp only [List.length_append, List.length_singleton] at hlen
      have h0 : (decChars (b / 10)).length = 0 := by omega
      exact decChars_ne_nil _ (List.length_eq_zero.mp h0)
    · next h1 h2 =>
      exfalso
      have hlen := congrArg List.length h
      simp only [List.length_append, List.length_singleton] at hlen
      have h0 : (decChars (a / 10)).length = 0 := by omega
      exact decChars_ne_nil _ (List.length_eq_zero.mp h0)
    · next h1 h2 =>
      have hsplit := List.append_inj' h (by simp)
      have hdiv : a / 10 = b / 10 :=
        ih (a / 10) (Nat.div_lt_self (by omega) (by norm_num)) hsplit.1
      have hmod : a % 10 = b % 10 := by
        have hc : decDigit (a % 10) = decDigit (b % 10) := by
          have := hsplit.2
          simpa using this
        exact decDigit_inj (Nat.mod_lt _ (by norm_num)) (Nat.mod_lt _ (by norm_num)) hc
      omega

theorem decStr_injective : Function.Injective decStr := by
  intro a b h
  exact decChars_injective (congrArg String.data h)

theorem getD_set_self {α : Type} (l : List α) (i : Nat) (x d : α) (h : i < l.length) :
    (l.set i x).getD i d = x := by
  simp [List.getD, List.getElem?_set, h]

theorem getD_append_left {α : Type} (l l2 : List α) (i : Nat) (d : α) (h : i < l.length) :
    (l ++ l2).getD i d = l.getD i d := by
  simp [List.getD, List.getElem?_append, h]

theorem getD_append_length {α : Type} (l : List α) (x d : α) :
    (l ++ [x]).getD l.length d = x := by
  simp [List.getD, List.getElem?_append_right]

theorem string_append_cancel_left {a b c : String} (h : a ++ b = a ++ c) : b = c := by
  have hd := congrArg String.data h
  simp [String.data_append] at hd
  exact String.ext hd

theorem underscore_split : ∀ (x1 x2 y1 y2 : List Char), '_' ∉ x1 → '_' ∉ x2 →
    x1 ++ '_' :: y1 = x2 ++ '_' :: y2 → x1 = x2 ∧ y1 = y2 := by
  intro x1
  induction x1 with
  | nil =>
    intro x2 y1 y2 h1 h2 h
    cases x2 with
    | nil => simpa using h
    | cons c cs =>
      exfalso
      simp only [List.nil_append, List.cons_append, List.cons.injEq] at h
      exact h2 (by rw [h.1]; exact List.mem_cons_self _ _)
  | cons c cs ih =>
    intro x2 y1 y2 h1 h2 h
    cases x2 with
    | nil =>
      exfalso
      simp only [List.nil_append, List.cons_append, List.cons.injEq] at h
      exact h1 (by rw [← h.1]; exact List.mem_cons_self _ _)
    | cons d ds =>
      simp only [List.cons_append, List.cons.injEq] at h
      obtain ⟨hcd, ht⟩ := h
      obtain ⟨hx, hy⟩ := ih ds y1 y2 (fun hm => h1 (List.mem_cons_of_mem _ hm))
        (fun hm => h2 (List.mem_cons_of_mem _ hm)) ht
      exact ⟨by rw [hcd, hx], hy⟩

theorem name_encode_inj {t1 t2 : String} {c1 c2 : Nat}
    (h : t1 ++ "_" ++ decStr c1 = t2 ++ "_" ++ decStr c2) : t1 = t2 ∧ c1 = c2 := by
  have hu : "_".data = ['_'] := rfl
  have hd : t1.data ++ '_' :: decChars c1 = t2.data ++ '_' :: decChars c2 := by
    have := congrArg String.data h
    simpa [String.data_append, decStr, hu, List.append_assoc] using this
  have hr : (decChars c1).reverse ++ '_' :: t1.data.reverse
      = (decChars c2).reverse ++ '_' :: t2.data.reverse := by
    have := congrArg List.reverse hd
    simpa [List.reverse_append] using this
  have hs := underscore_split _ _ _ _
    (fun hm => underscore_not_mem_decChars c1 (List.mem_reverse.mp hm))
    (fun hm => underscore_not_mem_decChars c2 (List.mem_reverse.mp hm)) hr
  exact ⟨String.ext (List.reverse_injective hs.2), decChars_injective (List.reverse_injective hs.1)⟩

theorem fullname_inj (s : Scope) {t1 t2 : String} {c1 c2 : Nat}
    (h : (if s.nspace ≠ "" then s.nspace ++ "/" ++ (t1 ++ "_" ++ decStr c1)
          else t1 ++ "_" ++ decStr c1)
       = (if s.nspace ≠ "" then s.nspace ++ "/" ++ (t2 ++ "_" ++ decStr c2)
          else t2 ++ "_" ++ decStr c2)) :
    t1 = t2 ∧ c1 = c2 := by
  split at h
  · exact name_encode_inj (string_append_cancel_left h)
  · exact name_encode_inj h

theorem assocFind_set_self {κ α : Type} [DecidableEq κ] (m : List (κ × α)) (k : κ)
    (v : α) (d : α) : assocFind (assocSet m k v) k d = v := by
  simp [assocFind, assocSet]

theorem assocFind_set_ne {κ α : Type} [DecidableEq κ] (m : List (κ × α)) {k k' : κ}
    (v : α) (d : α) (h : k ≠ k') : assocFind (assocSet m k v) k' d = assocFind m k' d := by
  simp [assocFind, assocSet, h]

theorem counter_bump_self (w : World) (ref : Nat) (t : String) (v : Nat)
    (h : ref < w.namemaps.length) : (w.bumpCounter ref t v).counter ref t = v := by
  simp only [World.counter, World.bumpCounter]
  rw [getD_set_self _ _ _ _ h]
  exact assocFind_set_self _ _ _ _

theorem counter_bump_ne (w : World) (ref : Nat) {t t' : String} (v : Nat)
    (h : ref < w.namemaps.length) (hne : t ≠ t') :
    (w.bumpCounter ref t v).counter ref t' = w.counter ref t' := by
  simp only [World.counter, World.bumpCounter]
  rw [getD_set_self _ _ _ _ h]
  exact assocFind_set_ne _ _ _ hne

theorem bump_namemaps_length (w : World) (ref : Nat) (t : String) (v : Nat) :
    (w.bumpCounter ref t v).namemaps.length = w.namemaps.length := by
  simp [World.bumpCounter]

theorem counter_congr {w1 w2 : World} (h : w1.namemaps = w2.namemaps) (ref : Nat)
    (t : String) : w1.counter ref t = w2.counter ref t := by
  simp [World.counter, h]

theorem counter_eq_of_namemaps {w1 : World} {nm : List NameMap}
    (h : w1.namemaps = nm) (ref : Nat) (t : String) :
    w1.counter ref t = assocFind (nm.getD ref []) t 0 := by
  simp [World.counter, h]

theorem addOp_err_some (v : Graph → OpSpec → Option String) (s : Scope) (a : OpSpec)
    (w : World) {e : GoError} (h : w.err = some e) :
    Scope.AddOperation v s a w = (.sentinel, w) := by
  simp [Scope.AddOperation, Scope.Err, h]

theorem ite_world_err (w : World) (c : Prop) [Decidable c] (ref : Nat) (t : String)
    (x : Nat) : (if c then w.bumpCounter ref t x else w).err = w.err := by
  split <;> simp [World.bumpCounter]

theorem ite_world_graph (w : World) (c : Prop) [Decidable c] (ref : Nat) (t : String)
    (x : Nat) : (if c then w.bumpCounter ref t x else w).graph = w.graph := by
  split <;> simp [World.bumpCounter]

theorem addOp_namemaps (v : Graph → OpSpec → Option String) (s : Scope) (a : OpSpec)
    (w : World) (h : w.err = none) :
    (Scope.AddOperation v s a w).2.namemaps
      = if a.name = "" then
          (w.bumpCounter s.namemapRef a.type (w.counter s.namemapRef a.type + 1)).namemaps
        else w.namemaps := by
  simp only [Scope.AddOperation, Scope.Err, h]
  split
  · next op g heq => split <;> rfl
  · next msg g heq =>
    simp only [Scope.UpdateErr]
    have he1 := ite_world_err w (a.name = "") s.namemapRef a.type
      (w.counter s.namemapRef a.type + 1)
    rw [h] at he1
    simp only [he1]
    split <;> rfl

theorem addOp_ok_name (v : Graph → OpSpec → Option String) (s : Scope) (a : OpSpec)
    (w : World) {op : Operation} {w' : World} (herr : w.err = none)
    (h : Scope.AddOperation v s a w = (.ok op, w')) :
    op.name = (if s.nspace ≠ "" then
                 s.nspace ++ "/" ++ (if a.name = "" then
                   a.type ++ "_" ++ decStr (w.counter s.namemapRef a.type + 1) else a.name)
               else (if a.name = "" then
                   a.type ++ "_" ++ decStr (w.counter s.namemapRef a.type + 1) else a.name)) := by
  simp only [Scope.AddOperation, Scope.Err, herr] at h
  split at h
  · next op1 g1 heq =>
    simp only [Prod.mk.injEq, AddResult.ok.injEq] at h
    simp only [Graph.AddOperation] at heq
    split at heq
    · next msg hv => simp at heq
    · next hv =>
      simp only [Prod.mk.injEq, Except.ok.injEq] at heq
      rw [← h.1, ← heq.1]
  · next msg g1 heq =>
    simp at h

theorem addOp_err_of_ok (v : Graph → OpSpec → Option String) (s : Scope) (a : OpSpec)
    (w : World) {op : Operation} {w' : World} (herr : w.err = none)
    (h : Scope.AddOperation v s a w = (.ok op, w')) : w'.err = none := by
  have he1 := ite_world_err w (a.name = "") s.namemapRef a.type
    (w.counter s.namemapRef a.type + 1)
  rw [herr] at he1
  simp only [Scope.AddOperation, Scope.Err, herr] at h
  split at h
  · next op1 g1 heq =>
    simp only [Prod.mk.injEq, AddResult.ok.injEq] at h
    rw [← h.2]
    exact he1
  · next msg g1 heq =>
    simp at h

theorem addOp_fail_shape (v : Graph → OpSpec → Option String) (s : Scope) (a : OpSpec)
    (w : World) {e : GoError} {w' : World} (herr : w.err = none)
    (h : Scope.AddOperation v s a w = (.panicked e, w')) :
    ∃ msg, e = .addOpFailed a.type msg ∧ w'.err = some e ∧ w'.graph = w.graph := by
  have he1 := ite_world_err w (a.name = "") s.namemapRef a.type
    (w.counter s.namemapRef a.type + 1)
  rw [herr] at he1
  have hg1 := ite_world_graph w (a.name = "") s.namemapRef a.type
    (w.counter s.namemapRef a.type + 1)
  simp only [Scope.AddOperation, Scope.Err, herr] at h
  split at h
  · next op1 g1 heq =>
    simp at h
  · next msg g1 heq =>
    simp only [Scope.UpdateErr, he1, Option.getD_some, Prod.mk.injEq,
      AddResult.panicked.injEq] at h
    refine ⟨msg, h.1.symm, ?_, ?_⟩
    · rw [← h.2]
      rw [h.1]
    · rw [← h.2]
      simp only [Graph.AddOperation] at heq
      split at heq
      · next msg2 hv =>
        simp only [Prod.mk.injEq, Except.error.injEq] at heq
        rw [← heq.2]
        exact hg1
      · next hv => simp at heq

theorem addOp_not_sentinel (v : Graph → OpSpec → Option String) (s : Scope) (a : OpSpec)
    (w : World) (herr : w.err = none) :
    (Scope.AddOperation v s a w).1 ≠ .sentinel := by
  simp only [Scope.AddOperation, Scope.Err, herr, Graph.AddOperation]
  split
  · next op g heq => simp
  · next msg g heq => simp

/-- Claim C1: once the shared error cell is set, every further `AddOperation`
on any scope sharing that cell returns the nil sentinel and leaves the world
(graph, counters, error cell) untouched; on a clean cell the triggering
native failure is recorded immediately in the cell, wrapped with the
operation type, and the very same error is raised (panicked) to the
immediate caller, without adding an operation; and `UpdateErr` never
overwrites an already-recorded error, so the first failure wins. -/
theorem addOperation_sticky_error (v : Graph → OpSpec → Option String) (s : Scope)
    (a : OpSpec) (w : World) :
    (∀ e0, w.err = some e0 → Scope.AddOperation v s a w = (.sentinel, w)) ∧
    (w.err = none →
      (∃ op w', Scope.AddOperation v s a w = (.ok op, w') ∧ w'.err = none) ∨
      (∃ msg w', Scope.AddOperation v s a w
          = (.panicked (.addOpFailed a.type msg), w') ∧
        w'.err = some (.addOpFailed a.type msg) ∧ w'.graph = w.graph)) ∧
    (∀ e0, w.err = some e0 → ∀ t m, Scope.UpdateErr s t m w = (e0, w)) := by
  refine ⟨?_, ?_, ?_⟩
  · intro e0 h
    exact addOp_err_some v s a w h
  · intro h
    rcases hres : Scope.AddOperation v s a w with ⟨r, w'⟩
    cases r with
    | sentinel =>
      exact absurd (congrArg Prod.fst hres) (addOp_not_sentinel v s a w h)
    | ok op =>
      exact Or.inl ⟨op, w', rfl, addOp_err_of_ok v s a w h hres⟩
    | panicked e =>
      obtain ⟨msg, he, hcell, hgraph⟩ := addOp_fail_shape v s a w h hres
      subst he
      exact Or.inr ⟨msg, w', rfl, hcell, hgraph⟩
  · intro e0 h t m
    simp [Scope.UpdateErr, h]

/-- Witness for C1 at concrete inputs: a poisoned world short-circuits and
`UpdateErr` keeps the originally recorded error. -/
theorem addOperation_sticky_error_witness :
    Scope.AddOperation vFail s0 constSpec wBoom = (.sentinel, wBoom) ∧
    Scope.UpdateErr s0 "Const" "later failure" wBoom = (.native "boom", wBoom) :=
  ⟨(addOperation_sticky_error vFail s0 constSpec wBoom).1 (.native "boom") rfl,
   (addOperation_sticky_error vFail s0 constSpec wBoom).2.2 (.native "boom") rfl
     "Const" "later failure"⟩

/-- Claim C2: on an error-free scope, a nameless spec is auto-named
`<Type>_<n>` with `n` the per-type counter of the scope's name table
incremented before the native append (so the first auto-name of a type
uses 1 and the counter grows by one on every auto-naming, whether or not
the append fails), and the generated or given name is prefixed with the
scope's non-empty namespace joined by `/`. -/
theorem addOperation_autoname (v : Graph → OpSpec → Option String) (s : Scope)
    (a : OpSpec) (w : World) (hr : s.namemapRef < w.namemaps.length)
    (he : w.err = none) :
    ((Scope.AddOperation v s a w).2.counter s.namemapRef a.type
      = if a.name = "" then w.counter s.namemapRef a.type + 1
        else w.counter s.namemapRef a.type) ∧
    (∀ op, (Scope.AddOperation v s a w).1 = .ok op →
      op.name = (if s.nspace ≠ "" then
                   s.nspace ++ "/" ++ (if a.name = "" then
                     a.type ++ "_" ++ decStr (w.counter s.namemapRef a.type + 1)
                   else a.name)
                 else (if a.name = "" then
                     a.type ++ "_" ++ decStr (w.counter s.namemapRef a.type + 1)
                   else a.name))) := by
  constructor
  · have hnm := addOp_namemaps v s a w he
    rw [counter_eq_of_namemaps hnm]
    split
    · next hname =>
      exact counter_bump_self w s.namemapRef a.type _ hr
    · next hname => rfl
  · intro op hok
    have hres : Scope.AddOperation v s a w = (.ok op, (Scope.AddOperation v s a w).2) := by
      rw [← hok]
    exact addOp_ok_name v s a w he hres

/-- Witness for C2 at concrete inputs: the fresh root scope with a nameless
Const spec (counter 0, so the generated name uses 1). -/
theorem addOperation_autoname_witness :
    s0.namemapRef < w0.namemaps.length ∧ w0.err = none ∧
    (((Scope.AddOperation vOk s0 constSpec w0).2.counter s0.namemapRef constSpec.type
      = if constSpec.name = "" then w0.counter s0.namemapRef constSpec.type + 1
        else w0.counter s0.namemapRef constSpec.type) ∧
    (∀ op, (Scope.AddOperation vOk s0 constSpec w0).1 = .ok op →
      op.name = (if s0.nspace ≠ "" then
                   s0.nspace ++ "/" ++ (if constSpec.name = "" then
                     constSpec.type ++ "_"
                       ++ decStr (w0.counter s0.namemapRef constSpec.type + 1)
                   else constSpec.name)
                 else (if constSpec.name = "" then
                     constSpec.type ++ "_"
                       ++ decStr (w0.counter s0.namemapRef constSpec.type + 1)
                   else constSpec.name)))) :=
  ⟨by decide, rfl, addOperation_autoname vOk s0 constSpec w0 (by decide) rfl⟩

/-- Claim C4: the first `Finalize` on an error-free scope returns the graph
and poisons the cell with the finalized error; afterwards `Finalize` fails
with exactly that finalized error and `AddOperation` short-circuits, and the
finalized error is distinct from the construction-error shapes. -/
theorem finalize_once (v : Graph → OpSpec → Option String) (s : Scope) (a : OpSpec)
    (w : World) :
    (w.err = none →
      Scope.Finalize s w = (.ok w.graph, { w with err := some .scopeFinalized })) ∧
    (w.err = some .scopeFinalized →
      Scope.Finalize s w = (.error .scopeFinalized, w) ∧
      Scope.AddOperation v s a w = (.sentinel, w)) ∧
    (∀ t m, GoError.scopeFinalized ≠ .addOpFailed t m) ∧
    (∀ m, GoError.scopeFinalized ≠ .native m) := by
  refine ⟨?_, ?_, ?_, ?_⟩
  · intro h
    simp [Scope.Finalize, Scope.Err, h]
  · intro h
    exact ⟨by simp [Scope.Finalize, Scope.Err, h], addOp_err_some v s a w h⟩
  · intro t m
    simp
  · intro m
    simp

/-- Witness for C4 at concrete inputs: finalizing the fresh root world, then
using the finalized world again. -/
theorem finalize_once_witness :
    w0.err = none ∧
    Scope.Finalize s0 w0 = (.ok w0.graph, { w0 with err := some .scopeFinalized }) ∧
    Scope.Finalize s0 { w0 with err := some .scopeFinalized }
      = (.error .scopeFinalized, { w0 with err := some .scopeFinalized }) ∧
    Scope.AddOperation vOk s0 constSpec { w0 with err := some .scopeFinalized }
      = (.sentinel, { w0 with err := some .scopeFinalized }) :=
  ⟨rfl, (finalize_once vOk s0 constSpec w0).1 rfl,
   ((finalize_once vOk s0 constSpec { w0 with err := some .scopeFinalized }).2.1 rfl).1,
   ((finalize_once vOk s0 constSpec { w0 with err := some .scopeFinalized }).2.1 rfl).2⟩

theorem getParamsList_eq_flatMap (m : List (VarTag × List Output)) (ts : List VarTag) :
    getParamsList m ts = ts.flatMap (fun t => assocFind m t []) := by
  induction ts with
  | nil => rfl
  | cons t ts ih => simp [getParamsList, ih]

theorem tagVariable_lookup (s : Scope) (x : Output) :
    ∀ (ts : List VarTag) (w : World) (t : VarTag),
    assocFind (Scope.tagVariable s x ts w).outTagMap t []
      = assocFind w.outTagMap t [] ++ List.replicate (ts.count t) x := by
  intro ts
  induction ts with
  | nil =>
    intro w t
    simp [Scope.tagVariable]
  | cons t0 ts ih =>
    intro w t
    rw [Scope.tagVariable, ih]
    by_cases hone : t0 = t
    · subst hone
      rw [assocFind_set_self]
      simp [List.count_cons, List.replicate_succ, List.append_assoc]
    · rw [assocFind_set_ne _ _ _ hone]
      simp [List.count_cons, hone]

theorem count_getParamsList (m : List (VarTag × List Output)) (x : Output)
    (ts : List VarTag) :
    (getParamsList m ts).count x = (ts.map (fun t => (assocFind m t []).count x)).sum := by
  induction ts with
  | nil => rfl
  | cons t ts ih => simp [getParamsList, List.count_append, ih]

/-- Claim C5: `GetParams` with no tags behaves as `GetParams TagTrainable`;
with tags it returns the per-tag concatenation, in request order, of the
outputs recorded under each tag in first-registration order (`tagVariable`
appends, one occurrence per listed tag), so an output under several queried
tags appears once per queried tag; and `mustGetParams` returns the same list
and fails loudly exactly when that list is empty. -/
theorem getParams_spec (s : Scope) (w : World) (tags : List VarTag) (x : Output)
    (newTags : List VarTag) :
    (Scope.GetParams s [] w = Scope.GetParams s [TagTrainable] w) ∧
    (tags ≠ [] → Scope.GetParams s tags w
        = tags.flatMap (fun t => assocFind w.outTagMap t [])) ∧
    (∀ t, assocFind (Scope.tagVariable s x newTags w).outTagMap t []
        = assocFind w.outTagMap t [] ++ List.replicate (newTags.count t) x) ∧
    (tags ≠ [] → (Scope.GetParams s tags w).count x
        = (tags.map (fun t => (assocFind w.outTagMap t []).count x)).sum) ∧
    (Scope.mustGetParams s tags w
        = if Scope.GetParams s tags w = [] then .error (.noMatchingParams tags)
          else .ok (Scope.GetParams s tags w)) := by
  refine ⟨rfl, ?_, ?_, ?_, ?_⟩
  · intro h
    simp [Scope.GetParams, h, getParamsList_eq_flatMap]
  · exact tagVariable_lookup s x newTags w
  · intro h
    simp [Scope.GetParams, h, count_getParamsList]
  · simp [Scope.mustGetParams, List.length_eq_zero]

/-- Witness for C5 at concrete inputs: the default tag list. -/
theorem getParams_spec_witness :
    ([TagTrainable] : List VarTag) ≠ [] ∧
    Scope.GetParams s0 [TagTrainable] w0
      = [TagTrainable].flatMap (fun t => assocFind w0.outTagMap t []) ∧
    (Scope.GetParams s0 [TagTrainable] w0).count outSample
      = ([TagTrainable].map (fun t => (assocFind w0.outTagMap t []).count outSample)).sum :=
  ⟨by simp, (getParams_spec s0 w0 [TagTrainable] outSample []).2.1 (by simp),
   (getParams_spec s0 w0 [TagTrainable] outSample []).2.2.2.1 (by simp)⟩

/-- Claim C6: exporting a function, importing the exported bytes and
exporting again succeeds and reproduces the first export byte-for-byte
(count and content). -/
theorem func_export_import_export (fn : Func) :
    ∃ fn2 : Func, ImportFunc (Func.WriteTo fn).2 = .ok fn2 ∧
      Func.WriteTo fn2 = Func.WriteTo fn := by
  refine ⟨⟨"", ⟨fn.bytes.val, fn.bytes.property⟩, []⟩, ?_, ?_⟩
  · simp only [ImportFunc, Func.WriteTo]
    rw [dif_neg fn.bytes.property]
  · rfl

/-- Claim C7: usage errors fail loudly — registering a nil function is an
explicit error, a nonempty output-name list of the wrong length makes
capture fail with an explicit mismatch error, and `mustGetParams` fails
loudly when no parameter matches. -/
theorem usage_errors_loud (g : Graph) (grad : Option Func) (name desc : String)
    (ins outs : List Output) (outNames : List String) (s : Scope) (w : World)
    (tags : List VarTag) :
    (Graph.RegisterFunc g none grad = .error .nilFuncRegister) ∧
    (outNames.length ≠ outs.length → outNames ≠ [] →
      Graph.AsFunc g name ins outs outNames desc
        = .error (.outNameMismatch outs.length outNames.length)) ∧
    (Scope.GetParams s tags w = [] →
      Scope.mustGetParams s tags w = .error (.noMatchingParams tags)) := by
  refine ⟨rfl, ?_, ?_⟩
  · intro h1 h2
    have hc : outs.length ≠ outNames.length ∧ outNames.length ≠ 0 :=
      ⟨fun hh => h1 hh.symm, fun hh => h2 (List.length_eq_zero.mp hh)⟩
    unfold Graph.AsFunc
    rw [if_pos hc]
  · intro h
    simp [Scope.mustGetParams, h]

/-- Witness for C7 at concrete inputs: an output-name/output-count mismatch,
an empty parameter registry, and a nil registration. -/
theorem usage_errors_loud_witness :
    (["y1"] : List String).length ≠ ([] : List Output).length ∧
    (["y1"] : List String) ≠ [] ∧
    Graph.AsFunc NewGraph "f" [] [] ["y1"] "" = .error (.outNameMismatch 0 1) ∧
    Scope.GetParams s0 [] w0 = [] ∧
    Scope.mustGetParams s0 [] w0 = .error (.noMatchingParams []) ∧
    Graph.RegisterFunc NewGraph none (some fnSample) = .error .nilFuncRegister :=
  ⟨by simp, by simp,
   (usage_errors_loud NewGraph (some fnSample) "f" "" [] [] ["y1"] s0 w0 []).2.1
     (by simp) (by simp),
   rfl,
   (usage_errors_loud NewGraph (some fnSample) "f" "" [] [] ["y1"] s0 w0 []).2.2 rfl,
   (usage_errors_loud NewGraph (some fnSample) "f" "" [] [] ["y1"] s0 w0 []).1⟩

/-- Claim C9: a zero-length attribute write still performs the native set
call with declared length 0 (so it overwrites any previous value with the
empty blob), and reading an attribute whose serialized form has zero length
writes nothing to the destination and reports 0 bytes, while a nonempty
attribute is written in full with its length reported. -/
theorem attr_zero_length (fn : Func) (nm : String) :
    (∃ fn2, Func.SetAttrFrom fn nm [] = .ok fn2 ∧ assocFind fn2.attrs nm [] = []) ∧
    (assocFind fn.attrs nm [] = [] → Func.WriteAttrTo fn nm = (.ok 0, [])) ∧
    (∀ b, assocFind fn.attrs nm [] = b → b ≠ [] →
      Func.WriteAttrTo fn nm = (.ok b.length, b)) := by
  refine ⟨⟨{ fn with attrs := assocSet fn.attrs nm [] }, rfl, ?_⟩, ?_, ?_⟩
  · exact assocFind_set_self _ _ _ _
  · intro h
    simp [Func.WriteAttrTo, h]
  · intro b hb hbne
    simp [Func.WriteAttrTo, hb, List.length_eq_zero, hbne]

/-- Witness for C9 at concrete inputs: the sample function's nonempty
attribute is written in full; after a zero-length write it reads as empty. -/
theorem attr_zero_length_witness :
    assocFind fnSample.attrs "grad" [] = [9, 9] ∧ ([9, 9] : List Nat) ≠ [] ∧
    Func.WriteAttrTo fnSample "grad" = (.ok 2, [9, 9]) :=
  ⟨rfl, by simp, (attr_zero_length fnSample "grad").2.2 [9, 9] rfl (by simp)⟩

/-- Claim C10: when the tensor already has the requested data type,
`CastTensor` returns the very tensor it was given together with no error and
leaves the process-wide worker state (graph, session, cast cache)
completely untouched, for every runtime behavior. -/
theorem castTensor_same_dtype (rt : CastRuntime) (d : DataType) (t : Tensor)
    (w : workerObj) (h : t.DataType = d) :
    CastTensor rt d t w = (.ok t, w) := by
  simp [CastTensor, h]

/-- Witness for C10 at concrete inputs: an uninitialized worker is left
uninitialized. -/
theorem castTensor_same_dtype_witness :
    tenSample.DataType = 7 ∧
    CastTensor rtSample 7 tenSample wkSample = (.ok tenSample, wkSample) :=
  ⟨rfl, castTensor_same_dtype rtSample 7 tenSample wkSample rfl⟩

theorem subScope_counter (s : Scope) (ns : String) (w : World)
    (hr : s.namemapRef < w.namemaps.length) :
    (Scope.SubScope s ns w).2.counter s.namemapRef ns
      = w.counter s.namemapRef ns + 1 := by
  have hmaps : (Scope.SubScope s ns w).2.namemaps
      = (w.bumpCounter s.namemapRef ns (w.counter s.namemapRef ns + 1)).namemaps
          ++ [[]] := rfl
  rw [counter_eq_of_namemaps hmaps]
  rw [getD_append_left _ _ _ _ (by rw [bump_namemaps_length]; exact hr)]
  exact counter_bump_self w s.namemapRef ns _ hr

/-- Claim C8: `SubScope` returns a child whose namespace is the parent's
namespace joined by `/` (omitted when empty) with the disambiguated proposed
name `<ns>_<count>`, holding a fresh empty name-counter table of its own
(a new heap cell, distinct from the parent's), copying the parent's device
and control dependencies, leaving the shared graph, tag registry and error
cell untouched; and a second sub-scope derived from the same parent with the
same proposed namespace gets a namespace distinct from the first. -/
theorem subScope_spec (s : Scope) (ns : String) (w : World)
    (hr : s.namemapRef < w.namemaps.length) :
    ((Scope.SubScope s ns w).1.nspace
      = (if s.nspace ≠ "" then
           s.nspace ++ "/" ++ (ns ++ "_" ++ decStr (w.counter s.namemapRef ns))
         else ns ++ "_" ++ decStr (w.counter s.namemapRef ns))) ∧
    ((Scope.SubScope s ns w).1.namemapRef = w.namemaps.length) ∧
    ((Scope.SubScope s ns w).1.namemapRef ≠ s.namemapRef) ∧
    ((Scope.SubScope s ns w).2.namemaps.getD (Scope.SubScope s ns w).1.namemapRef []
      = []) ∧
    ((Scope.SubScope s ns w).1.device = s.device) ∧
    ((Scope.SubScope s ns w).1.controlDependencies = s.controlDependencies) ∧
    ((Scope.SubScope s ns w).2.graph = w.graph) ∧
    ((Scope.SubScope s ns w).2.outTagMap = w.outTagMap) ∧
    ((Scope.SubScope s ns w).2.err = w.err) ∧
    ((Scope.SubScope s ns (Scope.SubScope s ns w).2).1.nspace
      ≠ (Scope.SubScope s ns w).1.nspace) := by
  have hblen := bump_namemaps_length w s.namemapRef ns (w.counter s.namemapRef ns + 1)
  have h2 : (Scope.SubScope s ns w).1.namemapRef = w.namemaps.length := hblen
  refine ⟨rfl, h2, ?_, ?_, rfl, rfl, rfl, rfl, rfl, ?_⟩
  · rw [h2]
    omega
  · have hmaps : (Scope.SubScope s ns w).2.namemaps
        = (w.bumpCounter s.namemapRef ns (w.counter s.namemapRef ns + 1)).namemaps
            ++ [[]] := rfl
    rw [hmaps, h2, ← hblen]
    exact getD_append_length _ _ _
  · intro hEq
    have hc1 := subScope_counter s ns w hr
    have hB : (Scope.SubScope s ns (Scope.SubScope s ns w).2).1.nspace
        = (if s.nspace ≠ "" then
             s.nspace ++ "/"
               ++ (ns ++ "_" ++ decStr ((Scope.SubScope s ns w).2.counter s.namemapRef ns))
           else ns ++ "_" ++ decStr ((Scope.SubScope s ns w).2.counter s.namemapRef ns)) :=
      rfl
    have hA : (Scope.SubScope s ns w).1.nspace
        = (if s.nspace ≠ "" then
             s.nspace ++ "/" ++ (ns ++ "_" ++ decStr (w.counter s.namemapRef ns))
           else ns ++ "_" ++ decStr (w.counter s.namemapRef ns)) := rfl
    rw [hB, hc1, hA] at hEq
    have hinj := fullname_inj s hEq
    omega

/-- Witness for C8 at concrete inputs: two sibling sub-scopes of the fresh
root with the same proposed namespace. -/
theorem subScope_spec_witness :
    s0.namemapRef < w0.namemaps.length ∧
    (Scope.SubScope s0 "sub" w0).1.namemapRef = w0.namemaps.length ∧
    (Scope.SubScope s0 "sub" (Scope.SubScope s0 "sub" w0).2).1.nspace
      ≠ (Scope.SubScope s0 "sub" w0).1.nspace :=
  ⟨by decide, (subScope_spec s0 "sub" w0 (by decide)).2.1,
   (subScope_spec s0 "sub" w0 (by decide)).2.2.2.2.2.2.2.2.2⟩

theorem addOp_counter_eq (v : Graph → OpSpec → Option String) (s : Scope) (a : OpSpec)
    (w : World) (herr : w.err = none) (t : String) :
    (Scope.AddOperation v s a w).2.counter s.namemapRef t
      = if a.name = "" then
          (w.bumpCounter s.namemapRef a.type
            (w.counter s.namemapRef a.type + 1)).counter s.namemapRef t
        else w.counter s.namemapRef t := by
  rw [counter_eq_of_namemaps (addOp_namemaps v s a w herr)]
  by_cases hname : a.name = "" <;> simp [hname, World.counter]

theorem addOp_counter_le (v : Graph → OpSpec → Option String) (s : Scope) (a : OpSpec)
    (w : World) (herr : w.err = none) (hr : s.namemapRef < w.namemaps.length)
    (t : String) :
    w.counter s.namemapRef t ≤ (Scope.AddOperation v s a w).2.counter s.namemapRef t := by
  rw [addOp_counter_eq v s a w herr t]
  split
  · by_cases hts : a.type = t
    · subst hts
      rw [counter_bump_self w s.namemapRef a.type _ hr]
      omega
    · rw [counter_bump_ne w s.namemapRef _ hr hts]
  · exact Nat.le_refl _

theorem addOp_namemaps_length (v : Graph → OpSpec → Option String) (s : Scope)
    (a : OpSpec) (w : World) (herr : w.err = none) :
    (Scope.AddOperation v s a w).2.namemaps.length = w.namemaps.length := by
  rw [addOp_namemaps v s a w herr]
  split
  · exact bump_namemaps_length w s.namemapRef a.type _
  · rfl

theorem runAdds_nodup_aux (v : Graph → OpSpec → Option String) (s : Scope) :
    ∀ (specs : List OpSpec) (w : World), s.namemapRef < w.namemaps.length →
    (∀ nm ∈ (runAdds v s specs w).1, ∃ t c,
        nm = (if s.nspace ≠ "" then s.nspace ++ "/" ++ (t ++ "_" ++ decStr c)
              else t ++ "_" ++ decStr c)
          ∧ w.counter s.namemapRef t < c) ∧
    ((runAdds v s specs w).1).Nodup := by
  intro specs
  induction specs with
  | nil =>
    intro w hr
    exact ⟨by simp [runAdds], by simp [runAdds]⟩
  | cons a rest ih =>
    intro w hr
    by_cases herr : w.err = none
    case neg =>
      obtain ⟨e, he⟩ : ∃ e, w.err = some e := by
        cases hw : w.err
        · exact absurd hw herr
        · exact ⟨_, rfl⟩
      have hred : runAdds v s (a :: rest) w = runAdds v s rest w := by
        simp only [runAdds]
        rw [addOp_err_some v s a w he]
      rw [hred]
      exact ih w hr
    case pos =>
      have hr2 : s.namemapRef < (Scope.AddOperation v s a w).2.namemaps.length := by
        rw [addOp_namemaps_length v s a w herr]
        exact hr
      have hcnt := addOp_counter_le v s a w herr hr
      rcases hres : Scope.AddOperation v s a w with ⟨r, w2⟩
      rw [hres] at hr2
      rw [hres] at hcnt
      obtain ⟨hbound, hnodup⟩ := ih w2 hr2
      have hred : runAdds v s (a :: rest) w
          = (match (r, w2) with
             | (.panicked _, w') => (([] : List String), w')
             | (.sentinel, w') => runAdds v s rest w'
             | (.ok op, w') =>
               let rr := runAdds v s rest w'
               ((if a.name = "" then [op.name] else []) ++ rr.1, rr.2)) := by
        simp only [runAdds]
        rw [hres]
      cases r with
      | panicked e =>
        rw [hred]
        exact ⟨by simp, by simp⟩
      | sentinel =>
        rw [hred]
        refine ⟨?_, hnodup⟩
        intro nm hmem
        obtain ⟨t, c, hshape, hlt⟩ := hbound nm hmem
        exact ⟨t, c, hshape, Nat.lt_of_le_of_lt (hcnt t) hlt⟩
      | ok op =>
        rw [hred]
        by_cases hname : a.name = ""
        case neg =>
          simp only [hname, if_neg, ite_false, List.nil_append]
          refine ⟨?_, hnodup⟩
          intro nm hmem
          obtain ⟨t, c, hshape, hlt⟩ := hbound nm hmem
          exact ⟨t, c, hshape, Nat.lt_of_le_of_lt (hcnt t) hlt⟩
        case pos =>
          have hokname := addOp_ok_name v s a w herr hres
          rw [if_pos hname] at hokname
          have hc2self : w2.counter s.namemapRef a.type
              = w.counter s.namemapRef a.type + 1 := by
            have := addOp_counter_eq v s a w herr a.type
            rw [hres] at this
            rw [this, if_pos hname]
            exact counter_bump_self w s.namemapRef a.type _ hr
          simp only [hname, ite_true, List.singleton_append]
          constructor
          · intro nm hmem
            rcases List.mem_cons.mp hmem with heq1 | hmemtail
            · refine ⟨a.type, w.counter s.namemapRef a.type + 1, ?_, by omega⟩
              rw [heq1, hokname]
            · obtain ⟨t, c, hshape, hlt⟩ := hbound nm hmemtail
              exact ⟨t, c, hshape, Nat.lt_of_le_of_lt (hcnt t) hlt⟩
          · rw [List.nodup_cons]
            refine ⟨?_, hnodup⟩
            intro hmem2
            obtain ⟨t, c, hshape, hlt⟩ := hbound op.name hmem2
            rw [hokname] at hshape
            obtain ⟨hteq, hceq⟩ := fullname_inj s hshape
            rw [← hteq] at hlt
            omega

/-- Claim C3: over any sequence of `AddOperation` calls on one scope, the
names generated for the auto-named (nameless) specs are pairwise distinct —
generated operation names are unique within the scope's namespace,
regardless of how the native validator behaves and of interleaved
explicitly-named specs. -/
theorem generated_names_unique (v : Graph → OpSpec → Option String) (s : Scope)
    (specs : List OpSpec) (w : World) (hr : s.namemapRef < w.namemaps.length) :
    ((runAdds v s specs w).1).Nodup :=
  (runAdds_nodup_aux v s specs w hr).2

/-- Witness for C3 at concrete inputs: three auto-named specs on the fresh
root scope. -/
theorem generated_names_unique_witness :
    s0.namemapRef < w0.namemaps.length ∧
    ((runAdds vOk s0 [constSpec, constSpec, { constSpec with type := "Add" }] w0).1).Nodup :=
  ⟨by decide,
   generated_names_unique vOk s0 [constSpec, constSpec, { constSpec with type := "Add" }]
     w0 (by decide)⟩

end TfGo
